import Mathlib

/-!
Shallow embedding of diskcache `recipes.py`: coordination primitives
(Averager, Lock, RLock, BoundedSemaphore, throttle, barrier) built over a
transactional key-value store.  Each primitive uses a single store key, so a
primitive's store state is modelled as `Option V` (the cell at its key,
`none` when absent).  Python floats are modelled as `ℚ`, Python ints as `ℤ`
or `ℕ`, and the token string of an RLock as `String`.  Every `cache.set` /
`cache.add` call is recorded as a `Write` event carrying the value and the
`expire` / `tag` arguments actually passed at the call site.
-/

namespace DiskCache

/-- A `cache.set`/`cache.add` call event: the value written together with the
`expire` and `tag` arguments passed to the store at that call site. -/
structure Write (α : Type) where
  value : α
  expire : Option ℚ
  tag : Option String
deriving Repr, DecidableEq

/-! ## Averager

`Averager.__init__` stores `cache, key, expire, tag`; it performs no store
call, which the model records as an empty write list. -/

structure Averager where
  key : String
  expire : Option ℚ
  tag : Option String
deriving Repr, DecidableEq

/-- Embeds `Averager.__init__`: pure attribute assignment, no store operations. -/
def Averager.init (key : String) (expire : Option ℚ) (tag : Option String) :
    Averager × List (Write (ℚ × ℤ)) :=
  (⟨key, expire, tag⟩, [])

/-- Embeds `Averager.add`: inside one transaction, read `(total, count)` with default
`(0.0, 0)`, then set `(total + value, count + 1)` with the instance's
`expire` and `tag`. Returns the new cell state and the write event. -/
def Averager.add (a : Averager) (value : ℚ) (s : Option (ℚ × ℤ)) :
    Option (ℚ × ℤ) × Write (ℚ × ℤ) :=
  let p := s.getD (0, 0)
  let total := p.1 + value
  let count := p.2 + 1
  (some (total, count), ⟨(total, count), a.expire, a.tag⟩)

/-- Embeds `Averager.get`: single read with default `(0.0, 0)`; returns `0.0` when
`count == 0`, else `total / count`. -/
def Averager.get (_a : Averager) (s : Option (ℚ × ℤ)) : ℚ :=
  let p := s.getD (0, 0)
  if p.2 = 0 then 0 else p.1 / (p.2 : ℚ)

/-- Embeds `Averager.pop`: `cache.pop(key, default=(0.0, 0))` — atomic
get-then-delete; returns the average computed from the popped pair and the
cell afterwards (absent). -/
def Averager.pop (_a : Averager) (s : Option (ℚ × ℤ)) : ℚ × Option (ℚ × ℤ) :=
  let p := s.getD (0, 0)
  (if p.2 = 0 then 0 else p.1 / (p.2 : ℚ), none)

/-- Sequential `add` calls folded over the cell state (write events dropped). -/
def Averager.runAdds (a : Averager) (vs : List ℚ) (s : Option (ℚ × ℤ)) :
    Option (ℚ × ℤ) :=
  vs.foldl (fun st v => (Averager.add a v st).1) s

theorem Averager.runAdds_some (a : Averager) (vs : List ℚ) (t : ℚ) (c : ℤ) :
    Averager.runAdds a vs (some (t, c)) = some (t + vs.sum, c + vs.length) := by
  induction vs generalizing t c with
  | nil => simp [Averager.runAdds]
  | cons v vs ih =>
    have step : Averager.runAdds a (v :: vs) (some (t, c))
        = Averager.runAdds a vs (some (t + v, c + 1)) := rfl
    rw [step, ih]
    simp
    constructor
    · ring
    · ring

/-- Claim C7: after a finite sequence of `n` `add(v_i)` calls on a fresh key,
`get()` returns `0.0` when `n = 0` and otherwise the sum of the added values
(in call order) divided by `n`; in particular adds of `0.080` and `0.120`
give `0.1`, and a further add of `0.160` gives `0.12`. -/
theorem averager_running_mean (a : Averager) (vs : List ℚ) :
    (Averager.get a (Averager.runAdds a vs none)
      = if vs.length = 0 then 0 else vs.sum / (vs.length : ℚ))
    ∧ Averager.get a (Averager.runAdds a [0.080, 0.120] none) = 0.1
    ∧ Averager.get a (Averager.runAdds a [0.080, 0.120, 0.160] none) = 0.12 := by
  have key : ∀ ws : List ℚ, Averager.get a (Averager.runAdds a ws none)
      = if ws.length = 0 then 0 else ws.sum / (ws.length : ℚ) := by
    intro ws
    cases ws with
    | nil => simp [Averager.runAdds, Averager.get]
    | cons w ws =>
      have step : Averager.runAdds a (w :: ws) none
          = Averager.runAdds a ws (some (0 + w, 0 + 1)) := rfl
      rw [step, Averager.runAdds_some]
      have hlen : ((0 : ℤ) + 1 + (ws.length : ℤ)) = ((ws.length : ℤ) + 1) := by ring
      simp only [Averager.get, Option.getD_some, List.length_cons, List.sum_cons]
      have hne : ((0 : ℤ) + 1 + (ws.length : ℤ)) ≠ 0 := by positivity
      rw [if_neg hne, if_neg (by omega : ¬ ws.length + 1 = 0)]
      push_cast
      ring_nf
  refine ⟨key vs, ?_, ?_⟩
  · rw [key]; norm_num
  · rw [key]; norm_num

/-- Claim C8: `pop()` returns exactly what `get()` would have returned on the
same state (`0.0` at zero count), and afterwards the cell is absent so
`get()` returns `0.0`. -/
theorem averager_pop_roundtrip (a : Averager) (s : Option (ℚ × ℤ)) :
    (Averager.pop a s).1 = Averager.get a s
    ∧ Averager.get a (Averager.pop a s).2 = 0 := by
  exact ⟨rfl, by simp [Averager.get, Averager.pop]⟩

/-! ## Lock

`Lock` stores a sentinel (`None`) at its key; existence of the key means
held.  `acquire` spins on the atomic create-if-absent `cache.add`;
`release` deletes the key.  The cell is modelled as `Bool` (key present). -/

structure Lock where
  key : String
  expire : Option ℚ
  tag : Option String
deriving Repr, DecidableEq

/-- Embeds `Lock.__init__`: pure attribute assignment, no store operations. -/
def Lock.init (key : String) (expire : Option ℚ) (tag : Option String) :
    Lock × List (Write Unit) :=
  (⟨key, expire, tag⟩, [])

/-- One `cache.add(key, None, expire, tag)` attempt from `Lock.acquire`'s
spin loop: inserts only if absent; returns the new cell, whether the add
succeeded, and the write event when it did. -/
def Lock.addAttempt (l : Lock) (cell : Bool) :
    Bool × Bool × Option (Write Unit) :=
  if cell then (cell, false, none)
  else (true, true, some ⟨(), l.expire, l.tag⟩)

/-- Embeds `Lock.release`: `cache.delete(key)` — unconditionally clears the cell. -/
def Lock.release (_l : Lock) (_cell : Bool) : Bool := false

/-- Interleaving model for `n` callers sharing one `Lock`: the store cell plus
each caller's local status (`true` while between a successful `acquire`
return and the matching `release`). -/
structure LockSys (n : ℕ) where
  cell : Bool
  holding : Fin n → Bool

/-- One atomic store operation by one caller, following the `Lock` protocol:
an idle caller's `cache.add` either succeeds (cell absent) or is a no-op
retry (cell present); a holding caller's matching `release` deletes the key. -/
inductive LockStep (n : ℕ) : LockSys n → LockSys n → Prop
  | acquire (i : Fin n) (s : LockSys n) (hc : s.cell = false)
      (hi : s.holding i = false) :
      LockStep n s ⟨true, Function.update s.holding i true⟩
  | acquireFail (i : Fin n) (s : LockSys n) (hc : s.cell = true) :
      LockStep n s s
  | release (i : Fin n) (s : LockSys n) (hi : s.holding i = true) :
      LockStep n s ⟨false, Function.update s.holding i false⟩

/-- Initial system state: key absent, nobody holding. -/
def lockInit (n : ℕ) : LockSys n := ⟨false, fun _ => false⟩

/-- States reachable from `lockInit` by interleaved lock operations. -/
def LockReachable (n : ℕ) (s : LockSys n) : Prop :=
  Relation.ReflTransGen (LockStep n) (lockInit n) s

/-- Inductive invariant: every holder implies the key is present, and at most
one caller holds. -/
def LockInv {n : ℕ} (s : LockSys n) : Prop :=
  (∀ i, s.holding i = true → s.cell = true)
  ∧ ∀ i j, s.holding i = true → s.holding j = true → i = j

theorem lockStep_inv {n : ℕ} {s t : LockSys n} (h : LockStep n s t)
    (hs : LockInv s) : LockInv t := by
  obtain ⟨h1, h2⟩ := hs
  cases h with
  | acquire i s hc hi =>
    constructor
    · intro j _; rfl
    · intro j k hj hk
      replace hj : Function.update s.holding i true j = true := hj
      replace hk : Function.update s.holding i true k = true := hk
      have hji : j = i := by
        by_contra hne
        rw [Function.update_noteq hne] at hj
        exact absurd (h1 j hj) (by simp [hc])
      have hki : k = i := by
        by_contra hne
        rw [Function.update_noteq hne] at hk
        exact absurd (h1 k hk) (by simp [hc])
      rw [hji, hki]
  | acquireFail i s hc => exact ⟨h1, h2⟩
  | release i s hi =>
    have hnone : ∀ j, Function.update s.holding i false j = true → False := by
      intro j hj
      by_cases hji : j = i
      · rw [hji, Function.update_same] at hj; exact Bool.false_ne_true hj
      · rw [Function.update_noteq hji] at hj
        exact hji (h2 j i hj hi)
    exact ⟨fun j hj => absurd hj (fun hj => hnone j hj),
           fun j k hj _ => absurd hj (fun hj => hnone j hj)⟩

theorem lockReachable_inv {n : ℕ} {s : LockSys n} (h : LockReachable n s) :
    LockInv s := by
  induction h with
  | refl => exact ⟨fun i hi => absurd hi (by simp [lockInit]),
                   fun i j hi _ => absurd hi (by simp [lockInit])⟩
  | tail _ hstep ih => exact lockStep_inv hstep ih

/-- Claim C1: mutual exclusion of `Lock` — in every state reachable by
interleaved atomic `add`/`delete` operations of `n` callers following the
acquire/matching-release protocol, at most one caller is between a
successful `acquire` and its `release`. -/
theorem lock_mutual_exclusion (n : ℕ) (s : LockSys n)
    (h : LockReachable n s) :
    ∀ i j, s.holding i = true → s.holding j = true → i = j :=
  (lockReachable_inv h).2

/-- The state after caller 0 of 2 acquires the fresh lock. -/
def lockS1 : LockSys 2 :=
  ⟨true, Function.update (lockInit 2).holding 0 true⟩

theorem lock_mutual_exclusion_witness : (0 : Fin 2) = 0 :=
  lock_mutual_exclusion 2 lockS1
    (Relation.ReflTransGen.single (LockStep.acquire 0 (lockInit 2) rfl rfl))
    0 0 (by simp [lockS1]) (by simp [lockS1])

/-! ## RLock

The cell holds `(value, count)` where `value` is the owner token string (the
Python default `None` is `Option.none`) and `count` the reentrancy depth.
The owner token is computed once in `__init__` from the constructing
process id and thread id as `'{pid}-{tid}'`.  Each method call also has an
ambient execution context (the calling process/thread); the method bodies
never consult it, so it appears as an unused parameter. -/

/-- Ambient execution context of a call: `os.getpid()` and
`threading.get_ident()` of the calling process/thread. -/
structure Ctx where
  pid : ℕ
  tid : ℕ
deriving Repr, DecidableEq

/-- Embeds `'{}-{}'.format(pid, tid)`. -/
def tokenFormat (pid tid : ℕ) : String :=
  toString pid ++ "-" ++ toString tid

structure RLock where
  key : String
  expire : Option ℚ
  tag : Option String
  value : String
deriving Repr, DecidableEq

/-- Embeds `RLock.__init__`: attribute assignment plus computing the owner token
from the constructing context; no store operations. -/
def RLock.init (key : String) (expire : Option ℚ) (tag : Option String)
    (ctx : Ctx) : RLock × List (Write (Option String × ℤ)) :=
  (⟨key, expire, tag, tokenFormat ctx.pid ctx.tid⟩, [])

/-- Read `(value, count)` with default `(None, 0)`. -/
def rlockRead (s : Option (Option String × ℤ)) : Option String × ℤ :=
  s.getD (none, 0)

/-- One transaction of `RLock.acquire`'s spin loop: read `(value, count)`;
if `self._value == value or count == 0`, set `(self._value, count + 1)` and
return success, else leave the cell unchanged (the caller sleeps and
retries).  Returns the new cell, success flag, and write event if any. -/
def RLock.acquireAttempt (r : RLock) (_ctx : Ctx)
    (s : Option (Option String × ℤ)) :
    Option (Option String × ℤ) × Bool × Option (Write (Option String × ℤ)) :=
  let p := rlockRead s
  if some r.value = p.1 ∨ p.2 = 0 then
    (some (some r.value, p.2 + 1), true,
     some ⟨(some r.value, p.2 + 1), r.expire, r.tag⟩)
  else (s, false, none)

/-- Embeds `RLock.release`: one transaction reading `(value, count)`; asserts
`self._value == value and count > 0` (raising
`'cannot release un-acquired lock'` before any write, so the cell is
unchanged on that path), else sets `(value, count - 1)`. -/
def RLock.release (r : RLock) (_ctx : Ctx)
    (s : Option (Option String × ℤ)) :
    Option (Option String × ℤ) × Except String (Write (Option String × ℤ)) :=
  let p := rlockRead s
  if some r.value = p.1 ∧ 0 < p.2 then
    (some (p.1, p.2 - 1), Except.ok ⟨(p.1, p.2 - 1), r.expire, r.tag⟩)
  else (s, Except.error "cannot release un-acquired lock")

/-- Holds exactly on the assertion-failure outcome. -/
def isErr {α : Type} : Except String α → Bool
  | Except.error _ => true
  | Except.ok _ => false

/-- Claim C2: `RLock.release` fails with the release-without-ownership
assertion exactly when the stored owner token differs from the caller's
token or the depth is zero; on that path the cell is unchanged, and
otherwise it writes `(owner_token, depth - 1)`. -/
theorem rlock_release_spec (r : RLock) (ctx : Ctx)
    (s : Option (Option String × ℤ)) (hd : 0 ≤ (rlockRead s).2) :
    (isErr (RLock.release r ctx s).2 = true
      ↔ ((rlockRead s).1 ≠ some r.value ∨ (rlockRead s).2 = 0))
    ∧ (isErr (RLock.release r ctx s).2 = true → (RLock.release r ctx s).1 = s)
    ∧ ((rlockRead s).1 = some r.value → (rlockRead s).2 ≠ 0 →
        RLock.release r ctx s
          = (some ((rlockRead s).1, (rlockRead s).2 - 1),
             Except.ok ⟨((rlockRead s).1, (rlockRead s).2 - 1),
                        r.expire, r.tag⟩)) := by
  by_cases h : some r.value = (rlockRead s).1 ∧ 0 < (rlockRead s).2
  · refine ⟨?_, ?_, ?_⟩
    · rw [RLock.release, if_pos h]
      simp only [isErr]
      constructor
      · intro hfalse; exact absurd hfalse (by simp)
      · rintro (h1 | h2)
        · exact absurd h.1.symm h1
        · have := h.2; omega
    · rw [RLock.release, if_pos h]
      intro hfalse; exact absurd hfalse (by simp [isErr])
    · intro _ _
      rw [RLock.release, if_pos h]
  · refine ⟨?_, ?_, ?_⟩
    · rw [RLock.release, if_neg h]
      simp only [isErr, true_iff]
      by_cases h1 : (rlockRead s).1 = some r.value
      · right
        have hnp : ¬ 0 < (rlockRead s).2 := fun hp => h ⟨h1.symm, hp⟩
        omega
      · left; exact h1
    · rw [RLock.release, if_neg h]
      intro _; rfl
    · intro h1 h2
      exact absurd ⟨h1.symm, by omega⟩ h

theorem rlock_release_spec_witness :
    RLock.release ⟨"user-123", none, none, "7-11"⟩ ⟨7, 11⟩
        (some (some "7-11", 2))
      = (some (some "7-11", 1),
         Except.ok ⟨(some "7-11", 1), none, none⟩) :=
  (rlock_release_spec ⟨"user-123", none, none, "7-11"⟩ ⟨7, 11⟩
      (some (some "7-11", 2)) (by decide)).2.2 rfl (by decide)

/-- Claim C10: the owner token of an `RLock` is fixed at construction as
`'{pid}-{tid}'` of the constructing context and never recomputed:
`acquireAttempt` and `release` are independent of the calling context, so a
call through the same object from any other thread reenters (depth grows to
2 from a single hold) and can release. -/
theorem rlock_token_fixed_at_construction (key : String) (e : Option ℚ)
    (t : Option String) (ctx1 ctx2 : Ctx) :
    ((RLock.init key e t ctx1).1.value = tokenFormat ctx1.pid ctx1.tid)
    ∧ (∀ s, RLock.acquireAttempt (RLock.init key e t ctx1).1 ctx2 s
          = RLock.acquireAttempt (RLock.init key e t ctx1).1 ctx1 s)
    ∧ (∀ s, RLock.release (RLock.init key e t ctx1).1 ctx2 s
          = RLock.release (RLock.init key e t ctx1).1 ctx1 s)
    ∧ (let o := (RLock.init key e t ctx1).1
       let s1 := (RLock.acquireAttempt o ctx1 none).1
       (RLock.acquireAttempt o ctx2 s1).2.1 = true
       ∧ (RLock.acquireAttempt o ctx2 s1).1 = some (some o.value, 2)
       ∧ isErr (RLock.release o ctx2 (RLock.acquireAttempt o ctx2 s1).1).2
           = false) := by
  refine ⟨rfl, fun s => rfl, fun s => rfl, ?_, ?_, ?_⟩
  · rw [RLock.acquireAttempt]
    simp [RLock.acquireAttempt, rlockRead]
  · rw [RLock.acquireAttempt]
    simp [RLock.acquireAttempt, rlockRead]
  · rw [RLock.acquireAttempt]
    simp [RLock.acquireAttempt, RLock.release, rlockRead, isErr]

/-! ## BoundedSemaphore

The cell holds the integer `available`; an absent key reads as the bound
`self._value` (`max_value`), so a fresh semaphore starts full. -/

structure BoundedSemaphore where
  key : String
  value : ℤ
  expire : Option ℚ
  tag : Option String
deriving Repr, DecidableEq

/-- Embeds `BoundedSemaphore.__init__`: pure attribute assignment, no store
operations. -/
def BoundedSemaphore.init (key : String) (value : ℤ) (expire : Option ℚ)
    (tag : Option String) : BoundedSemaphore × List (Write ℤ) :=
  (⟨key, value, expire, tag⟩, [])

/-- Read `available` with default `self._value`. -/
def semRead (b : BoundedSemaphore) (s : Option ℤ) : ℤ :=
  s.getD b.value

/-- One transaction of `BoundedSemaphore.acquire`'s spin loop: read
`available` (default `self._value`); if positive, set `available - 1` and
return success, else leave the cell unchanged and retry after a sleep. -/
def BoundedSemaphore.acquireAttempt (b : BoundedSemaphore) (s : Option ℤ) :
    Option ℤ × Bool × Option (Write ℤ) :=
  let v := semRead b s
  if 0 < v then (some (v - 1), true, some ⟨v - 1, b.expire, b.tag⟩)
  else (s, false, none)

/-- Embeds `BoundedSemaphore.release`: one transaction reading `available`; asserts
`self._value > value` (raising `'cannot release un-acquired semaphore'`
before any write), else sets `available + 1`. -/
def BoundedSemaphore.release (b : BoundedSemaphore) (s : Option ℤ) :
    Option ℤ × Except String (Write ℤ) :=
  let v := semRead b s
  if b.value > v then
    (some (v + 1), Except.ok ⟨v + 1, b.expire, b.tag⟩)
  else (s, Except.error "cannot release un-acquired semaphore")

/-- Cell states reachable from the absent key by `acquire`/`release`
transactions of one `BoundedSemaphore`. -/
inductive SemReachable (b : BoundedSemaphore) : Option ℤ → Prop
  | init : SemReachable b none
  | acquire (s : Option ℤ) (h : SemReachable b s) :
      SemReachable b (BoundedSemaphore.acquireAttempt b s).1
  | release (s : Option ℤ) (h : SemReachable b s) :
      SemReachable b (BoundedSemaphore.release b s).1

/-- Claim C3: starting from the absent-key default `max_value`, every cell
state at a transaction boundary reads as an `available` with
`0 ≤ available ≤ max_value`; `acquire` (writing `available - 1` only when
`available > 0`) and `release` (asserting `available < max_value` before
writing `available + 1`) both preserve this. -/
theorem semaphore_bound_invariant (b : BoundedSemaphore)
    (hb : 0 ≤ b.value) (s : Option ℤ) (h : SemReachable b s) :
    0 ≤ semRead b s ∧ semRead b s ≤ b.value := by
  induction h with
  | init => exact ⟨hb, le_refl _⟩
  | acquire s _ ih =>
    rw [BoundedSemaphore.acquireAttempt]
    by_cases hv : 0 < semRead b s
    · rw [if_pos hv]
      simp only [semRead, Option.getD_some] at ih hv ⊢
      omega
    · rw [if_neg hv]
      exact ih
  | release s _ ih =>
    rw [BoundedSemaphore.release]
    by_cases hv : b.value > semRead b s
    · rw [if_pos hv]
      simp only [semRead, Option.getD_some] at ih hv ⊢
      omega
    · rw [if_neg hv]
      exact ih

/-- The semaphore of the docstring example: bound 2. -/
def semEx : BoundedSemaphore := ⟨"max-connections", 2, none, none⟩

theorem semaphore_bound_invariant_witness :
    0 ≤ semRead semEx (BoundedSemaphore.acquireAttempt semEx none).1
    ∧ semRead semEx (BoundedSemaphore.acquireAttempt semEx none).1
        ≤ semEx.value :=
  semaphore_bound_invariant semEx (by decide) _
    (SemReachable.acquire none SemReachable.init)

/-! ## Throttle

The decorator computes `rate = count / seconds`, derives the key, and
immediately stores `(now, count)` with the given `expire` and `tag`.  Each
wrapped call loops: inside a transaction it reads `(last, tally)` (no
default), accrues `tally += (now - last) * rate`, and either stores the new
pair (via `cache.set(key, value, expire, retry=True)` — `expire` positional,
no `tag` argument) and breaks, or sleeps `(1 - tally) / rate` and retries;
then it invokes the wrapped callable once. -/

structure Throttle where
  key : String
  count : ℚ
  seconds : ℚ
  expire : Option ℚ
  tag : Option String
deriving Repr, DecidableEq

/-- Embeds `rate = count / float(seconds)`. -/
def Throttle.rate (t : Throttle) : ℚ := t.count / t.seconds

/-- Observable actions of one wrapped call: a store write, a sleep, or the
single invocation of the wrapped callable. -/
inductive ThrEvent
  | sleep (d : ℚ)
  | store (w : Write (ℚ × ℚ))
  | invoke
deriving Repr, DecidableEq

/-- The tally after accrual: `tally + (now - last) * rate`. -/
def throttleAccrue (t : Throttle) (st : ℚ × ℚ) (now : ℚ) : ℚ :=
  st.2 + (now - st.1) * Throttle.rate t

/-- One transaction of the wrapper loop on cell `(last, tally)`: after
accrual, `tally > count` stores `(now, count - 1)`; else `tally >= 1`
stores `(now, tally - 1)`; else no write and `delay = (1 - tally) / rate`.
Both stores pass `expire` positionally and no `tag`.  Returns the cell after
the transaction, the write event if any, and `delay` (`0` in the first two
branches). -/
def throttleIter (t : Throttle) (st : ℚ × ℚ) (now : ℚ) :
    (ℚ × ℚ) × Option (Write (ℚ × ℚ)) × ℚ :=
  if t.count < throttleAccrue t st now then
    ((now, t.count - 1), some ⟨(now, t.count - 1), t.expire, none⟩, 0)
  else if 1 ≤ throttleAccrue t st now then
    ((now, throttleAccrue t st now - 1),
     some ⟨(now, throttleAccrue t st now - 1), t.expire, none⟩, 0)
  else (st, none, (1 - throttleAccrue t st now) / Throttle.rate t)

/-- The wrapper's `while True` loop, with fuel and the list of successive
`time_func()` readings; after each transaction, `if delay:` sleeps and
retries, else breaks.  Returns the final cell and the store/sleep events. -/
def throttleLoop (t : Throttle) :
    ℕ → ℚ × ℚ → List ℚ → Option ((ℚ × ℚ) × List ThrEvent)
  | 0, _, _ => none
  | _ + 1, _, [] => none
  | fuel + 1, st, now :: rest =>
    if (throttleIter t st now).2.2 = 0 then
      some ((throttleIter t st now).1,
            ((throttleIter t st now).2.1.map ThrEvent.store).toList)
    else
      match throttleLoop t fuel (throttleIter t st now).1 rest with
      | none => none
      | some p =>
          some (p.1, ((throttleIter t st now).2.1.map ThrEvent.store).toList
                      ++ ThrEvent.sleep (throttleIter t st now).2.2 :: p.2)

/-- A whole wrapped call on cell `st`: run the loop, then invoke the wrapped
callable once and return its result. -/
def throttleCall (t : Throttle) (fuel : ℕ) (st : ℚ × ℚ) (times : List ℚ)
    {α β : Type} (func : α → β) (args : α) :
    Option ((ℚ × ℚ) × List ThrEvent × β) :=
  match throttleLoop t fuel st times with
  | none => none
  | some p => some (p.1, p.2 ++ [ThrEvent.invoke], func args)

/-- Decoration-time effect of `throttle(...)`: one
`cache.set(key, (now, count), expire=expire, tag=tag, retry=True)`. -/
def throttleDecorator (t : Throttle) (now : ℚ) : List (Write (ℚ × ℚ)) :=
  [⟨(now, t.count), t.expire, t.tag⟩]

/-- Wrapper entry: `cache.get(key, retry=True)` has no `default` argument,
so an absent cell yields `None` and the unpacking `last, tally = ...` raises
before any transaction work; a present cell proceeds into the loop. -/
def throttleWrapperRun (t : Throttle) (fuel : ℕ) (cell : Option (ℚ × ℚ))
    (times : List ℚ) {α β : Type} (func : α → β) (args : α) :
    Except String (Option ((ℚ × ℚ) × List ThrEvent × β)) :=
  match cell with
  | none => Except.error "cannot unpack absent value"
  | some st => Except.ok (throttleCall t fuel st times func args)

theorem throttleLoop_no_invoke (t : Throttle) (fuel : ℕ) :
    ∀ (st : ℚ × ℚ) (times : List ℚ) (p : (ℚ × ℚ) × List ThrEvent),
      throttleLoop t fuel st times = some p → ThrEvent.invoke ∉ p.2 := by
  induction fuel with
  | zero => intro st times p h; simp [throttleLoop] at h
  | succ n ih =>
    intro st times p h
    cases times with
    | nil => simp [throttleLoop] at h
    | cons now rest =>
      rw [throttleLoop] at h
      by_cases hd : (throttleIter t st now).2.2 = 0
      · rw [if_pos hd] at h
        obtain ⟨rfl⟩ := Option.some.inj h
        cases (throttleIter t st now).2.1 with
        | none => simp
        | some w => simp
      · rw [if_neg hd] at h
        cases hrec : throttleLoop t n (throttleIter t st now).1 rest with
        | none => rw [hrec] at h; exact absurd h (by simp)
        | some q =>
          rw [hrec] at h
          obtain ⟨rfl⟩ := Option.some.inj h
          have hq := ih (throttleIter t st now).1 rest q hrec
          cases (throttleIter t st now).2.1 with
          | none => simpa using hq
          | some w => simpa using hq

/-- Claim C4: each wrapper-loop transaction accrues
`tally + (now - last) * rate` and then (1) if it exceeds `count`, stores
`(now, count - 1)` and exits the loop; (2) else if at least `1`, stores
`(now, tally - 1)` and exits; (3) else stores nothing, sleeps
`(1 - tally) / rate > 0`, and retries with the cell unchanged; and the
wrapped callable is invoked exactly once after the loop, its result
returned. -/
theorem throttle_token_bucket_step (t : Throttle) (fuel : ℕ)
    (last tally now : ℚ) (rest : List ℚ) (hr : 0 < Throttle.rate t) :
    (t.count < throttleAccrue t (last, tally) now →
      throttleLoop t (fuel + 1) (last, tally) (now :: rest)
        = some ((now, t.count - 1),
                [ThrEvent.store ⟨(now, t.count - 1), t.expire, none⟩]))
    ∧ (¬ t.count < throttleAccrue t (last, tally) now →
       1 ≤ throttleAccrue t (last, tally) now →
      throttleLoop t (fuel + 1) (last, tally) (now :: rest)
        = some ((now, throttleAccrue t (last, tally) now - 1),
                [ThrEvent.store ⟨(now, throttleAccrue t (last, tally) now - 1),
                                 t.expire, none⟩]))
    ∧ (¬ t.count < throttleAccrue t (last, tally) now →
       throttleAccrue t (last, tally) now < 1 →
      throttleIter t (last, tally) now
        = ((last, tally), none,
           (1 - throttleAccrue t (last, tally) now) / Throttle.rate t)
      ∧ throttleLoop t (fuel + 1) (last, tally) (now :: rest)
        = (throttleLoop t fuel (last, tally) rest).map
            (fun p => (p.1,
              ThrEvent.sleep
                ((1 - throttleAccrue t (last, tally) now) / Throttle.rate t)
                :: p.2)))
    ∧ (∀ (α β : Type) (func : α → β) (args : α)
          (out : (ℚ × ℚ) × List ThrEvent × β),
        throttleCall t (fuel + 1) (last, tally) (now :: rest) func args
          = some out →
        out.2.1.count ThrEvent.invoke = 1 ∧ out.2.2 = func args) := by
  refine ⟨?_, ?_, ?_, ?_⟩
  · intro h
    have hiter : throttleIter t (last, tally) now
        = ((now, t.count - 1), some ⟨(now, t.count - 1), t.expire, none⟩, 0) := by
      rw [throttleIter, if_pos h]
    rw [throttleLoop, hiter]
    simp [Option.toList]
  · intro h1 h2
    have hiter : throttleIter t (last, tally) now
        = ((now, throttleAccrue t (last, tally) now - 1),
           some ⟨(now, throttleAccrue t (last, tally) now - 1),
                 t.expire, none⟩, 0) := by
      rw [throttleIter, if_neg h1, if_pos h2]
    rw [throttleLoop, hiter]
    simp [Option.toList]
  · intro h1 h2
    have hne : ¬ 1 ≤ throttleAccrue t (last, tally) now := not_le.mpr h2
    have hiter : throttleIter t (last, tally) now
        = ((last, tally), none,
           (1 - throttleAccrue t (last, tally) now) / Throttle.rate t) := by
      rw [throttleIter, if_neg h1, if_neg hne]
    have hdpos : 0 < (1 - throttleAccrue t (last, tally) now) / Throttle.rate t :=
      div_pos (by linarith) hr
    refine ⟨hiter, ?_⟩
    rw [throttleLoop, hiter]
    rw [if_neg (show ¬ (((last, tally), (none : Option (Write (ℚ × ℚ))),
        (1 - throttleAccrue t (last, tally) now) / Throttle.rate t) :
        (ℚ × ℚ) × Option (Write (ℚ × ℚ)) × ℚ).2.2 = 0 from ne_of_gt hdpos)]
    cases hrec : throttleLoop t fuel (last, tally) rest with
    | none => rfl
    | some p => simp
  · intro α β func args out h
    rw [throttleCall] at h
    cases hrec : throttleLoop t (fuel + 1) (last, tally) (now :: rest) with
    | none => rw [hrec] at h; exact Option.noConfusion h
    | some p =>
      rw [hrec] at h
      replace h : some (p.1, p.2 ++ [ThrEvent.invoke], func args) = some out := h
      obtain rfl := (Option.some.inj h).symm
      have hni := throttleLoop_no_invoke t (fuel + 1) (last, tally)
        (now :: rest) p hrec
      constructor
      · have hz : List.count ThrEvent.invoke p.2 = 0 :=
          List.count_eq_zero.mpr hni
        simp [List.count_append, hz]
      · rfl

/-- Embeds the decoration-time effect of `barrier(...)`: construct the lock via the
factory (`Lock.__init__` is pure), performing no store operation. -/
def barrierDecorate (key : String) (expire : Option ℚ) (tag : Option String) :
    Lock × List (Write Unit) :=
  Lock.init key expire tag

/-- A throttle of one call per second with `count = 1`, `seconds = 1`,
no `expire`, and tag `'grp'`. -/
def throttleEx : Throttle := ⟨"mod.func", 1, 1, none, some "grp"⟩

/-- A throttle of one call per second with no `expire` and no tag. -/
def throttleUnitEx : Throttle := ⟨"m.f", 1, 1, none, none⟩

theorem throttle_token_bucket_step_witness :
    throttleLoop throttleUnitEx 1 (0, 0) [3]
      = some ((3, 0), [ThrEvent.store ⟨((3 : ℚ), (0 : ℚ)), none, none⟩]) := by
  have h := (throttle_token_bucket_step throttleUnitEx 0 0 0 3 []
      (by norm_num [Throttle.rate, throttleUnitEx])).1
    (by norm_num [throttleAccrue, Throttle.rate, throttleUnitEx])
  norm_num [throttleUnitEx] at h
  exact h

/-- Claim C5 counterexample: `throttleEx` is constructed with tag `'grp'`,
yet the write its wrapper performs on a call (accrued tally `5 > count`) is
`cache.set(key, (now, count - 1), expire, retry=True)` — carrying no tag. -/
theorem throttle_wrapper_tag_counterexample :
    throttleEx.tag = some "grp"
    ∧ (throttleIter throttleEx (0, 0) 5).2.1
        = some ⟨(5, 0), none, none⟩
    ∧ Write.tag (⟨(5, 0), none, none⟩ : Write (ℚ × ℚ)) ≠ throttleEx.tag := by
  refine ⟨rfl, ?_, by decide⟩
  have hc : throttleEx.count < throttleAccrue throttleEx (0, 0) 5 := by
    norm_num [throttleAccrue, Throttle.rate, throttleEx]
  rw [throttleIter, if_pos hc]
  norm_num [throttleEx]

/-- Claim C5 as amended: every write of Averager/Lock/RLock/BoundedSemaphore
and the throttle decorator's initial write pass the instance's tag through;
the throttle wrapper's per-call token updates pass `expire` but no tag. -/
theorem tag_passthrough_amended (a : Averager) (l : Lock) (r : RLock)
    (b : BoundedSemaphore) (t : Throttle) (ctx : Ctx) :
    (∀ v s, ((Averager.add a v s).2).tag = a.tag)
    ∧ (∀ cell w, (Lock.addAttempt l cell).2.2 = some w → w.tag = l.tag)
    ∧ (∀ s w, (RLock.acquireAttempt r ctx s).2.2 = some w → w.tag = r.tag)
    ∧ (∀ s w, (RLock.release r ctx s).2 = Except.ok w → w.tag = r.tag)
    ∧ (∀ s w, (BoundedSemaphore.acquireAttempt b s).2.2 = some w →
        w.tag = b.tag)
    ∧ (∀ s w, (BoundedSemaphore.release b s).2 = Except.ok w → w.tag = b.tag)
    ∧ (∀ now w, w ∈ throttleDecorator t now → w.tag = t.tag)
    ∧ (∀ st now w, (throttleIter t st now).2.1 = some w →
        w.tag = none ∧ w.expire = t.expire) := by
  refine ⟨fun v s => rfl, ?_, ?_, ?_, ?_, ?_, ?_, ?_⟩
  · intro cell w h
    cases cell
    · rw [Lock.addAttempt] at h
      simp only [Bool.false_eq_true, if_false] at h
      obtain rfl := (Option.some.inj h).symm
      rfl
    · rw [Lock.addAttempt] at h
      simp only [if_true] at h
      exact Option.noConfusion h
  · intro s w h
    rw [RLock.acquireAttempt] at h
    by_cases hc : some r.value = (rlockRead s).1 ∨ (rlockRead s).2 = 0
    · rw [if_pos hc] at h
      obtain rfl := (Option.some.inj h).symm
      rfl
    · rw [if_neg hc] at h
      exact Option.noConfusion h
  · intro s w h
    rw [RLock.release] at h
    by_cases hc : some r.value = (rlockRead s).1 ∧ 0 < (rlockRead s).2
    · rw [if_pos hc] at h
      obtain rfl := (Except.ok.inj h).symm
      rfl
    · rw [if_neg hc] at h
      exact Except.noConfusion h
  · intro s w h
    rw [BoundedSemaphore.acquireAttempt] at h
    by_cases hc : 0 < semRead b s
    · rw [if_pos hc] at h
      obtain rfl := (Option.some.inj h).symm
      rfl
    · rw [if_neg hc] at h
      exact Option.noConfusion h
  · intro s w h
    rw [BoundedSemaphore.release] at h
    by_cases hc : b.value > semRead b s
    · rw [if_pos hc] at h
      obtain rfl := (Except.ok.inj h).symm
      rfl
    · rw [if_neg hc] at h
      exact Except.noConfusion h
  · intro now w h
    rw [throttleDecorator] at h
    obtain rfl := List.mem_singleton.mp h
    rfl
  · intro st now w h
    rw [throttleIter] at h
    by_cases h1 : t.count < throttleAccrue t st now
    · rw [if_pos h1] at h
      obtain rfl := (Option.some.inj h).symm
      exact ⟨rfl, rfl⟩
    · rw [if_neg h1] at h
      by_cases h2 : 1 ≤ throttleAccrue t st now
      · rw [if_pos h2] at h
        obtain rfl := (Option.some.inj h).symm
        exact ⟨rfl, rfl⟩
      · rw [if_neg h2] at h
        exact Option.noConfusion h

theorem tag_passthrough_amended_witness :
    Write.tag (⟨(), (none : Option ℚ), some "g"⟩ : Write Unit) = some "g" :=
  (tag_passthrough_amended ⟨"a", none, some "g"⟩ ⟨"l", none, some "g"⟩
      ⟨"r", none, some "g", "1-2"⟩ ⟨"b", 1, none, some "g"⟩
      ⟨"t", 1, 1, none, some "g"⟩ ⟨1, 2⟩).2.1 false ⟨(), none, some "g"⟩ rfl

/-- Claim C6 counterexample: decorating a function with `throttle` writes the
initial `(now, count)` state to the store at decoration time — the write
list is non-empty before any wrapped call. -/
theorem throttle_eager_init_counterexample :
    throttleDecorator throttleEx 0 = [⟨(0, 1), none, some "grp"⟩]
    ∧ throttleDecorator throttleEx 0 ≠ ([] : List (Write (ℚ × ℚ))) :=
  ⟨rfl, by simp [throttleDecorator]⟩

/-- Claim C6 as amended: constructing Averager, Lock, RLock and
BoundedSemaphore, and decorating with `barrier`, perform no store write
(state is created lazily on first use); decorating with `throttle` eagerly
performs exactly one write, of `(now, count)` with the given `expire` and
`tag`. -/
theorem lazy_creation_amended (key : String) (e : Option ℚ)
    (tg : Option String) (v : ℤ) (ctx : Ctx) (t : Throttle) (now : ℚ) :
    (Averager.init key e tg).2 = []
    ∧ (Lock.init key e tg).2 = []
    ∧ (RLock.init key e tg ctx).2 = []
    ∧ (BoundedSemaphore.init key v e tg).2 = []
    ∧ (barrierDecorate key e tg).2 = []
    ∧ throttleDecorator t now = [⟨(now, t.count), t.expire, t.tag⟩] :=
  ⟨rfl, rfl, rfl, rfl, rfl, rfl⟩

/-- Claim C9: the wrapper reads its key with no default, so on an absent
cell it yields the store's absent value and fails on unpacking — it never
returns normally and never re-initializes the bucket; on a present cell it
proceeds into the loop. -/
theorem throttle_absent_key_error (t : Throttle) (fuel : ℕ) (times : List ℚ)
    (α β : Type) (func : α → β) (args : α) :
    throttleWrapperRun t fuel none times func args
      = Except.error "cannot unpack absent value"
    ∧ (∀ res, throttleWrapperRun t fuel (none : Option (ℚ × ℚ)) times func args
        ≠ Except.ok res)
    ∧ ∀ st, throttleWrapperRun t fuel (some st) times func args
        = Except.ok (throttleCall t fuel st times func args) := by
  refine ⟨rfl, ?_, fun st => rfl⟩
  intro res h
  exact Except.noConfusion h

end DiskCache
